import Mathlib

/-!
# Verification of the tabular reshape-and-aggregate pipeline

A shallow embedding of the tabular operations used by the analysis scripts in
`pythonFiles/` (pandas `melt`, boolean-mask filtering, `DataFrame.get`,
column assignment with index alignment, `np.mean`), together with models of
the `mean` / `conditional_mean` / `ols` / `attach` contracts described in the
design specification, and theorems settling the specification's claims
against the code.

Cell values are rationals or strings; the pandas missing marker (`NaN`) is a
distinguished constructor.  All numeric computation is over `ℚ`: the claims
settled here concern exact values (means of small integer lists, regression
on exactly collinear points), which double-precision arithmetic also
represents exactly, so nothing hinges on floating-point rounding.
-/

/-- A scalar cell value: numeric, string, or the missing marker `NaN`
(pandas fills unmatched positions with `NaN`; `np.mean` of an empty array
returns `NaN`). -/
inductive Val where
  | num : ℚ → Val
  | str : String → Val
  | nan : Val
deriving DecidableEq, Repr

/-- The error kinds named by the specification's error-handling design. -/
inductive Err where
  | missingColumn
  | dimensionMismatch
  | lookup
  | emptyInput
deriving DecidableEq, Repr

/-- A wide table as read from the CSV files: one designated id column plus a
list of category columns (name and cells), in column order.  This is the
shape `pd.read_csv` produces for the `*_phi.csv` / `*_percentage.csv` files
(`boxplot.py` line 17, `heatmap_alpha_delta.py` line 30). -/
structure WideTable where
  idName : String
  id : List Val
  cats : List (String × List Val)
deriving DecidableEq, Repr

/-- Well-formedness of a wide table: every category column has the same
length as the id column, and category column names are distinct (the data
model invariant "column names are unique within a table"). -/
def WideTable.Wf (w : WideTable) : Prop :=
  (∀ c ∈ w.cats, c.2.length = w.id.length) ∧ (w.cats.map Prod.fst).Nodup

instance (w : WideTable) : Decidable w.Wf := by
  unfold WideTable.Wf; infer_instance

/-- A long (melted) table: the id column keeps its original name, the
category and value columns carry the names passed to `pd.melt` as
`var_name` / `value_name`; one row per (id, category) observation. -/
structure LongTable where
  idName : String
  catName : String
  valName : String
  rows : List (Val × String × Val)
deriving DecidableEq, Repr

/-- Embedding of `pd.melt(wide, id_vars=w.idName, var_name=varName,
value_name=valName)` (`boxplot.py` line 18, `heatmap_alpha_delta.py`
line 31, `q_matrix_init.py` lines 10-11): for each category column in
original column order, one output row per input row in original row order,
holding the id cell, the category column's name, and the cell. -/
def melt (w : WideTable) (varName valName : String) : LongTable :=
  { idName := w.idName
    catName := varName
    valName := valName
    rows := w.cats.flatMap fun c => (w.id.zip c.2).map fun p => (p.1, c.1, p.2) }

/-- A general table in the column-oriented form of a pandas `DataFrame`:
a list of column names and the parallel list of columns. -/
structure Table where
  names : List String
  cols : List (List Val)
deriving DecidableEq, Repr

/-- The table with no columns (and hence no rows). -/
def emptyTable : Table := ⟨[], []⟩

/-- The row count of a table, read off the first column (for a well-formed
table every column has this length). -/
def Table.numRows (t : Table) : ℕ := (t.cols.headD []).length

/-- Well-formedness of a table: as many names as columns, distinct names,
and all columns of equal length (the data model invariant). -/
def Table.Wf (t : Table) : Prop :=
  t.names.length = t.cols.length ∧ t.names.Nodup ∧
    ∀ c ∈ t.cols, c.length = t.numRows

instance (t : Table) : Decidable t.Wf := by
  unfold Table.Wf; infer_instance

/-- Embedding of `DataFrame.get(name)` (`analyze_gamma.py` line 15,
`deviations.py` line 22, `analyze_theta.py` lines 61-62, 74-78): the column
when one of that name is present, and `None` — here `Option.none` — when it
is absent, since pandas `get` defaults to `None` and raises no error. -/
def dfGet (t : Table) (c : String) : Option (List Val) :=
  List.lookup c (t.names.zip t.cols)

/-- Modelled from the spec: the fail-fast column accessor of the design
("MissingColumnError (referenced column absent from table)", raised
"immediately at the point of detection", with no "empty/null placeholder");
no such accessor exists in the source, which uses `DataFrame.get`. -/
def getSpec (t : Table) (c : String) : Except Err (List Val) :=
  match dfGet t c with
  | some col => Except.ok col
  | none => Except.error Err.missingColumn

/-- Keep the entries of `xs` at the positions where `mask` is `true`,
preserving order: the action of pandas boolean-mask selection on a single
column (or, applied to the list of rows, on the whole frame). -/
def applyMask {α : Type} (mask : List Bool) (xs : List α) : List α :=
  ((mask.zip xs).filter fun p => p.1).map fun p => p.2

/-- The number of `true` entries of a mask: the row count every column of a
mask-selected frame ends up with. -/
def trueCount (mask : List Bool) : ℕ := (mask.filter fun b => b).length

/-- Embedding of row selection by boolean mask, `df[mask]` (`boxplot.py`
line 26, `analyze_theta.py` line 77, `market_size.py` line 77): every
column is filtered by the same mask; the column names are unchanged. -/
def maskSelect (t : Table) (mask : List Bool) : Table :=
  { names := t.names, cols := t.cols.map (applyMask mask) }

/-- The rows of a column-oriented table: `n` rows, row `i` holding the
`i`-th cell of each column in column order. -/
def rowsOfN : ℕ → List (List Val) → List (List Val)
  | 0, _ => []
  | n + 1, cols =>
      (cols.map fun c => c.headD Val.nan) :: rowsOfN n (cols.map List.tail)

/-- The rows of a table. -/
def Table.rows (t : Table) : List (List Val) := rowsOfN t.numRows t.cols

/-- Filtering by a row predicate as the scripts perform it
(`df[df[col] > 0]`, `boxplot.py` line 26): the mask is the predicate
evaluated on each row, and the frame is mask-selected. -/
def dfFilter (t : Table) (p : List Val → Bool) : Table :=
  maskSelect t (t.rows.map p)

/-- Filtering masked from a single column, exactly the shape
`df[df[c] > 0]` takes in `analyze_theta.py` line 77 / `market_size.py`
line 77: the mask is a cell predicate evaluated down column `c`. -/
def colFilter (t : Table) (c : String) (p : Val → Bool) : Table :=
  maskSelect t (((dfGet t c).getD []).map p)

/-- Pandas index alignment of a fresh RangeIndex series against `n` target
positions: position `i` receives the series entry at `i`, and `NaN` where
the series has none (surplus entries are dropped). -/
def alignSeries (n : ℕ) (s : List Val) : List Val :=
  (List.range n).map fun i => s.getD i Val.nan

/-- Embedding of column assignment `df[name] = s` (`boxplot.py` line 23):
a new name is appended as a last column, an existing one is overwritten;
the assigned cells are the series entries aligned by position against the
frame's index.  Pandas performs this in place on the frame object; the
in-place nature is modelled by the heap of `BoxplotState` below. -/
def setColumn (t : Table) (name : String) (s : List Val) : Table :=
  if name ∈ t.names then
    { names := t.names
      cols := (t.names.zip t.cols).map fun p =>
        if p.1 = name then alignSeries t.numRows s else p.2 }
  else
    { names := t.names ++ [name], cols := t.cols ++ [alignSeries t.numRows s] }

/-- The three-column DataFrame a melted table is held as (the category
labels are string cells). -/
def LongTable.toTable (lt : LongTable) : Table :=
  { names := [lt.idName, lt.catName, lt.valName]
    cols := [lt.rows.map fun r => r.1,
      lt.rows.map fun r => Val.str r.2.1,
      lt.rows.map fun r => r.2.2] }

/-- The value column of a melted table, as the series
`treatment_percentage_melted.percentage` denotes it (`boxplot.py`
line 23). -/
def LongTable.valueCol (lt : LongTable) : List Val :=
  lt.rows.map fun r => r.2.2

/-- Modelled from the spec: `attach(base, other, key_columns=[id,
category])` — for every base row, look up the row of `other` with the equal
(id, category) pair and append its value; fail with the LookupError kind
when some base pair has no match.  No such keyed join exists in the source;
`boxplot.py` line 23 assigns the other melted frame's value column by
position instead. -/
def attachSpec (other : LongTable) :
    List (Val × String × Val) → Except Err (List (Val × String × Val × Val))
  | [] => Except.ok []
  | r :: rs =>
      match other.rows.find? fun o =>
          decide (o.1 = r.1) && decide (o.2.1 = r.2.1) with
      | some o =>
          match attachSpec other rs with
          | Except.ok rest => Except.ok ((r.1, r.2.1, r.2.2, o.2.2) :: rest)
          | Except.error e => Except.error e
      | none => Except.error Err.lookup

/-- The state of `boxplot.py` lines 18-23: a heap of DataFrame objects and,
for each Python variable, the heap index of the object it references —
Python assignment copies references, never objects. -/
structure BoxplotState where
  heap : List Table
  phiMeltedRef : ℕ
  pctMeltedRef : ℕ
  dataRef : ℕ
deriving DecidableEq, Repr

/-- Lines 18-22 of `boxplot.py`: melt both wide frames into two fresh heap
objects, then line 22, `treatment_data = treatment_phi_melted`, binds
`treatment_data` to the same object that `treatment_phi_melted`
references. -/
def boxplotBind (phiWide pctWide : WideTable) : BoxplotState :=
  { heap := [(melt phiWide "delta" "phi").toTable,
      (melt pctWide "delta" "percentage").toTable]
    phiMeltedRef := 0
    pctMeltedRef := 1
    dataRef := 0 }

/-- Line 23 of `boxplot.py`,
`treatment_data["percentage"] = treatment_percentage_melted.percentage`:
in-place column assignment on the heap object `treatment_data`
references. -/
def boxplotAttach (s : BoxplotState) : BoxplotState :=
  let pct := (dfGet (s.heap.getD s.pctMeltedRef emptyTable) "percentage").getD []
  let updated := setColumn (s.heap.getD s.dataRef emptyTable) "percentage" pct
  { s with heap := s.heap.set s.dataRef updated }

/-- The numeric contents of a column: `some` the rationals when every cell
is numeric, `none` when a `NaN` or string cell occurs. -/
def numsOf : List Val → Option (List ℚ)
  | [] => some []
  | Val.num q :: l =>
      match numsOf l with
      | some qs => some (q :: qs)
      | none => none
  | _ :: _ => none

/-- Embedding of `np.mean` on a numeric vector (`analyze_theta.py` lines
74-78, `market_size.py` lines 74-78): the sum divided by the length; on a
zero-length input NumPy emits a RuntimeWarning and returns `NaN` — it does
not raise. -/
def npMean (l : List ℚ) : Val :=
  if l.length = 0 then Val.nan else Val.num (l.sum / l.length)

/-- Embedding of `np.mean` over a column of cells: the numeric mean when the column is
non-empty and all-numeric, `NaN` on an empty column, and `NaN` when a
missing value occurs (NumPy propagates `NaN`). -/
def npMeanCol (l : List Val) : Val :=
  match numsOf l with
  | some qs => npMean qs
  | none => Val.nan

/-- Embedding of the conditional mean of `analyze_theta.py` /
`market_size.py` lines 77-78: mask-filter the frame on one column's cell
predicate, then `np.mean` of the target column of the filtered frame. -/
def condMean (t : Table) (filterCol : String) (p : Val → Bool)
    (targetCol : String) : Val :=
  npMeanCol ((dfGet (colFilter t filterCol p) targetCol).getD [])

/-- Modelled from the spec: the `mean` contract that "fails with an
EmptyInputError when the sequence has zero elements (do not silently
return NaN)"; the source instead calls `np.mean`, and §9 of the spec flags
the failure mode as its own deliberate clarification. -/
def meanSpec (l : List ℚ) : Except Err ℚ :=
  if l.length = 0 then Except.error Err.emptyInput
  else Except.ok (l.sum / l.length)

/-- The distinct entries of a list in order of first appearance: keep each
head and strip its later duplicates from the recursive result. -/
def uniqueInOrder : List String → List String
  | [] => []
  | x :: xs => x :: (uniqueInOrder xs).filter fun y => decide (y ≠ x)

/-- Modelled from the spec: re-widening, "grouping LongTable rows by
category back into columns" — the inverse reshape the spec says the engine
"supports ... conceptually (not used)"; it appears nowhere in the source.
Category columns are rebuilt per distinct category label in order of first
appearance, and the id column from the rows of the first category group. -/
def widen (lt : LongTable) : WideTable :=
  let catNames := uniqueInOrder (lt.rows.map fun r => r.2.1)
  { idName := lt.idName
    id := match catNames with
      | [] => []
      | c :: _ => (lt.rows.filter fun r => decide (r.2.1 = c)).map fun r => r.1
    cats := catNames.map fun c =>
      (c, (lt.rows.filter fun r => decide (r.2.1 = c)).map fun r => r.2.2) }

/-- The regression summary of the specification's `ols` contract
(intercept, slope, R², sample size).  The further inference statistics the
spec lists (standard errors, t-statistics, two-sided p-values under a
t-distribution) require the t-distribution's CDF and are left out of the
model; no claim mentions their values. -/
structure RegressionResult where
  intercept : ℚ
  slope : ℚ
  r2 : ℚ
  n : ℕ
deriving DecidableEq, Repr

/-- The sum of squared residuals Σ (yᵢ − a − b·xᵢ)² of the line with
intercept `a` and slope `b` on the paired data. -/
def ssr (x y : List ℚ) (a b : ℚ) : ℚ :=
  ((x.zip y).map fun p => (p.2 - a - b * p.1) ^ 2).sum

/-- Modelled from the spec: `ols(x, y)` — "requires `len(x) == len(y) >= 2`
...; fails with a DimensionMismatchError otherwise", and computes ordinary
least squares with an intercept term via the centred normal equations,
with R² as `1 − SS_res/SS_tot`.  The source only calls `sm.OLS` from the
external statsmodels library (`analyze_theta.py` lines 64-65,
`market_size.py` lines 64-65), whose internals are not repository code.
Degenerate divisions (zero-variance x) follow `ℚ`'s `x / 0 = 0`; the spec
leaves such inputs to "whatever the underlying linear algebra naturally
produces". -/
def ols (x y : List ℚ) : Except Err RegressionResult :=
  if x.length = y.length ∧ 2 ≤ x.length then
    let n : ℚ := (x.length : ℚ)
    let xbar := x.sum / n
    let ybar := y.sum / n
    let sxx := (x.map fun xi => (xi - xbar) ^ 2).sum
    let sxy := ((x.zip y).map fun p => (p.1 - xbar) * (p.2 - ybar)).sum
    let slope := sxy / sxx
    let intercept := ybar - slope * xbar
    let ssRes := ssr x y intercept slope
    let ssTot := (y.map fun yi => (yi - ybar) ^ 2).sum
    Except.ok ⟨intercept, slope, 1 - ssRes / ssTot, x.length⟩
  else Except.error Err.dimensionMismatch

/-- The length of a concatenation of equal-length blocks. -/
theorem length_flatMap_const {α β : Type} (f : α → List β) (l : List α) (n : ℕ)
    (hf : ∀ a ∈ l, (f a).length = n) : (l.flatMap f).length = l.length * n := by
  induction l with
  | nil => simp
  | cons a l ih =>
      simp only [List.flatMap_cons, List.length_append, List.length_cons]
      rw [hf a (List.mem_cons_self _ _),
        ih (fun b hb => hf b (List.mem_cons_of_mem _ hb)), Nat.succ_mul]
      omega

theorem melt_rows_length (w : WideTable) (hw : w.Wf) (varName valName : String) :
    (melt w varName valName).rows.length = w.cats.length * w.id.length := by
  unfold melt
  exact length_flatMap_const _ _ _ fun c hc => by
    simp only [List.length_map, List.length_zip, hw.1 c hc, Nat.min_self]

/-- Indexing into a concatenation of equal-length blocks. -/
theorem flatMap_getElem_blocks {α β : Type} (f : α → List β) (l : List α)
    (n i j : ℕ) (hf : ∀ a ∈ l, (f a).length = n) (hi : i < n)
    (hj : j < l.length) :
    (l.flatMap f)[j * n + i]? = (f (l.get ⟨j, hj⟩))[i]? := by
  induction l generalizing j with
  | nil => exact absurd hj (Nat.not_lt_zero _)
  | cons a l ih =>
      cases j with
      | zero =>
          simp only [List.flatMap_cons, Nat.zero_mul, Nat.zero_add, List.get]
          rw [List.getElem?_append_left]
          rw [hf a (List.mem_cons_self _ _)]; exact hi
      | succ j =>
          have hj' : j < l.length := Nat.lt_of_succ_lt_succ hj
          simp only [List.flatMap_cons, List.get]
          rw [List.getElem?_append_right]
          · rw [hf a (List.mem_cons_self _ _)]
            have harith : Nat.succ j * n + i - n = j * n + i := by
              rw [Nat.succ_mul]; omega
            rw [harith]
            exact ih j (fun b hb => hf b (List.mem_cons_of_mem _ hb)) hj'
          · rw [hf a (List.mem_cons_self _ _)]
            rw [Nat.succ_mul]; omega

/-- C5: For every well-formed WideTable, `melt` produces rows grouped by
category column — all id values for the first category column, then all for
the second, and so on — preserving the original column order and the
original row order within each group: the melted table has one row per
(row, category-column) pair, and the row at position `j * numRows + i` holds
the id cell of input row `i`, the name of category column `j`, and the cell
at row `i` of category column `j`. -/
theorem melt_row_order (w : WideTable) (varName valName : String) (i j : ℕ)
    (hw : w.Wf) (hi : i < w.id.length) (hj : j < w.cats.length) :
    (melt w varName valName).rows.length = w.cats.length * w.id.length ∧
    (melt w varName valName).rows[j * w.id.length + i]? =
      some (w.id.getD i Val.nan, (w.cats.getD j ("", [])).1,
        (w.cats.getD j ("", [])).2.getD i Val.nan) := by
  refine ⟨melt_rows_length w hw varName valName, ?_⟩
  unfold melt
  have hblock : ∀ c ∈ w.cats,
      ((w.id.zip c.2).map fun p => (p.1, c.1, p.2)).length = w.id.length := by
    intro c hc
    simp only [List.length_map, List.length_zip, hw.1 c hc, Nat.min_self]
  rw [flatMap_getElem_blocks _ _ w.id.length i j hblock hi hj]
  have hc2 : (w.cats.get ⟨j, hj⟩).2.length = w.id.length :=
    hw.1 _ (w.cats.get_mem j hj)
  have hzip : (w.id.zip (w.cats.get ⟨j, hj⟩).2)[i]? =
      some (w.id.getD i Val.nan, (w.cats.get ⟨j, hj⟩).2.getD i Val.nan) := by
    rw [List.getElem?_zip_eq_some]
    constructor
    · rw [List.getElem?_eq_getElem hi, List.getD_eq_getElem w.id Val.nan hi]
    · have hi2 : i < (w.cats.get ⟨j, hj⟩).2.length := by omega
      rw [List.getElem?_eq_getElem hi2, List.getD_eq_getElem _ Val.nan hi2]
  rw [List.getElem?_map, hzip]
  have hgetD : w.cats.getD j ("", []) = w.cats.get ⟨j, hj⟩ :=
    List.getD_eq_getElem w.cats ("", []) hj
  rw [hgetD]
  rfl

/-- Witness for `melt_row_order` at a concrete 2×2 wide table. -/
theorem melt_row_order_witness :
    (melt ⟨"alpha", [Val.num 1, Val.num 2],
        [("0.8", [Val.num 10, Val.num 11]), ("0.9", [Val.num 20, Val.num 21])]⟩
      "delta" "phi").rows.length = 2 * 2 ∧
    (melt ⟨"alpha", [Val.num 1, Val.num 2],
        [("0.8", [Val.num 10, Val.num 11]), ("0.9", [Val.num 20, Val.num 21])]⟩
      "delta" "phi").rows[1 * 2 + 0]? =
      some (Val.num 1, "0.9", Val.num 20) := by
  have h := melt_row_order
    ⟨"alpha", [Val.num 1, Val.num 2],
      [("0.8", [Val.num 10, Val.num 11]), ("0.9", [Val.num 20, Val.num 21])]⟩
    "delta" "phi" 0 1 (by constructor <;> decide) (by decide) (by decide)
  simpa using h

/-- A lookup for a key that is not among the names of a name/column zip
finds nothing. -/
theorem lookup_zip_of_not_mem (ns : List String) (cs : List (List Val))
    (c : String) (h : c ∉ ns) : List.lookup c (ns.zip cs) = none := by
  induction ns generalizing cs with
  | nil => simp
  | cons n ns ih =>
      cases cs with
      | nil => simp
      | cons c0 cs =>
          have hne : (c == n) = false :=
            beq_eq_false_iff_ne.mpr fun hcn => h (hcn ▸ List.mem_cons_self _ _)
          simp only [List.zip_cons_cons, List.lookup_cons, hne]
          exact ih cs fun hc => h (List.mem_cons_of_mem _ hc)

/-- A lookup over an association list ending in the sought key. -/
theorem lookup_append_last {β : Type} (l : List (String × β)) (c : String)
    (x : β) (h : ∀ p ∈ l, p.1 ≠ c) :
    List.lookup c (l ++ [(c, x)]) = some x := by
  induction l with
  | nil => simp [List.lookup]
  | cons p l ih =>
      obtain ⟨k, v⟩ := p
      have hne : (c == k) = false :=
        beq_eq_false_iff_ne.mpr fun hcn =>
          h (k, v) (List.mem_cons_self _ _) hcn.symm
      simp only [List.cons_append, List.lookup_cons, hne]
      exact ih fun q hq => h q (List.mem_cons_of_mem _ hq)

/-- Looking a name up in a frame whose columns were all transformed by `f`
yields the transformed column. -/
theorem lookup_zip_map {γ δ : Type} (ns : List String) (cs : List γ)
    (f : γ → δ) (c : String) :
    List.lookup c (ns.zip (cs.map f)) = (List.lookup c (ns.zip cs)).map f := by
  induction ns generalizing cs with
  | nil => simp
  | cons n ns ih =>
      cases cs with
      | nil => simp
      | cons c0 cs =>
          simp only [List.map_cons, List.zip_cons_cons, List.lookup_cons]
          cases hc : c == n
          · simp only [hc]; exact ih cs
          · simp only [hc]; rfl

/-- Aligning a series against exactly its own length reproduces it. -/
theorem alignSeries_eq_self (n : ℕ) (s : List Val) (h : s.length = n) :
    alignSeries n s = s := by
  subst h
  unfold alignSeries
  apply List.ext_getElem
  · simp
  · intro i h1 h2
    simp [List.getD, List.getElem?_eq_getElem h2]

/-- Mask selection, unfolded one row. -/
theorem applyMask_cons {α : Type} (b : Bool) (m : List Bool) (x : α)
    (xs : List α) :
    applyMask (b :: m) (x :: xs) =
      cond b (x :: applyMask m xs) (applyMask m xs) := by
  cases b <;> rfl

/-- A mask computed by mapping a predicate selects exactly the entries
satisfying the predicate. -/
theorem applyMask_map_self {α : Type} (p : α → Bool) (xs : List α) :
    applyMask (xs.map p) xs = xs.filter p := by
  induction xs with
  | nil => rfl
  | cons x xs ih =>
      rw [List.map_cons, applyMask_cons, List.filter_cons]
      cases h : p x <;> simp [h, ih]

/-- An all-false mask selects nothing. -/
theorem applyMask_all_false {α : Type} (mask : List Bool) (xs : List α)
    (h : ∀ b ∈ mask, b = false) : applyMask mask xs = [] := by
  induction mask generalizing xs with
  | nil => rfl
  | cons b m ih =>
      cases xs with
      | nil => rfl
      | cons x xs =>
          have hb : b = false := h b (List.mem_cons_self _ _)
          subst hb
          simp only [applyMask, List.zip_cons_cons, List.filter]
          exact ih xs fun b hb => h b (List.mem_cons_of_mem _ hb)

/-- Mask selection on a column of the mask's length keeps `trueCount mask`
entries. -/
theorem applyMask_length {α : Type} (mask : List Bool) (xs : List α)
    (h : xs.length = mask.length) :
    (applyMask mask xs).length = trueCount mask := by
  induction mask generalizing xs with
  | nil => cases xs with | nil => rfl | cons _ _ => simp at h
  | cons b m ih =>
      cases xs with
      | nil => simp at h
      | cons x xs =>
          have h' : xs.length = m.length := by simpa using h
          simp only [applyMask, trueCount, List.zip_cons_cons, List.filter]
          cases b
          · simpa [applyMask, trueCount] using ih xs h'
          · simpa [applyMask, trueCount] using ih xs h'

theorem rowsOfN_length (n : ℕ) (cols : List (List Val)) :
    (rowsOfN n cols).length = n := by
  induction n generalizing cols with
  | zero => rfl
  | succ n ih => simp [rowsOfN, ih]

/-- C4 counterexample: on a one-column frame, referencing the absent column
`"Phi"` through `DataFrame.get` — the accessor the scripts use — returns
`None`, a null placeholder, whereas the claimed contract (the modelled
`getSpec`) demands an immediate MissingColumnError. -/
theorem dfGet_missing_counterexample :
    dfGet ⟨["Gamma"], [[Val.num 1]]⟩ "Phi" = none ∧
    getSpec ⟨["Gamma"], [[Val.num 1]]⟩ "Phi"
      = Except.error Err.missingColumn := by
  constructor <;> rfl

/-- C4 (amended): for every table and every column name absent from it, the
column reference the scripts perform (`DataFrame.get`) raises nothing and
returns the null placeholder `None`. -/
theorem dfGet_absent_none (t : Table) (c : String) (h : c ∉ t.names) :
    dfGet t c = none :=
  lookup_zip_of_not_mem t.names t.cols c h

/-- Witness for `dfGet_absent_none` on a concrete frame. -/
theorem dfGet_absent_none_witness :
    dfGet ⟨["THETA", "DEGREE OF TACIT COLLUSION"],
      [[Val.num 1], [Val.num 2]]⟩ "PERCENTAGE OF COORDINATION" = none :=
  dfGet_absent_none _ _ (by decide)

/-- C2 counterexample: `np.mean` of the empty sequence evaluates to `NaN`,
not to an EmptyInputError (which the modelled `meanSpec` would raise), and
the conditional mean over a predicate matching zero rows of a non-empty
frame likewise evaluates to `NaN`. -/
theorem mean_empty_counterexample :
    npMean [] = Val.nan ∧
    meanSpec [] = Except.error Err.emptyInput ∧
    condMean ⟨["PERCENTAGE OF COORDINATION", "DEGREE OF TACIT COLLUSION"],
        [[Val.num 0], [Val.num 7]]⟩
      "PERCENTAGE OF COORDINATION"
      (fun v => match v with | Val.num q => decide (0 < q) | _ => false)
      "DEGREE OF TACIT COLLUSION" = Val.nan := by
  refine ⟨rfl, rfl, ?_⟩
  rfl

/-- C2 (amended): averaging over zero elements yields `NaN`, not an error —
`np.mean` of a zero-length sequence is `NaN`, and the conditional mean over
a predicate matching zero rows is `NaN` even when the unfiltered table is
non-empty. -/
theorem npMean_empty_nan :
    (∀ l : List ℚ, l.length = 0 → npMean l = Val.nan) ∧
    ∀ (t : Table) (fc tc : String) (p : Val → Bool), 0 < t.numRows →
      (∀ v ∈ (dfGet t fc).getD [], p v = false) →
      condMean t fc p tc = Val.nan := by
  constructor
  · intro l h
    unfold npMean
    rw [if_pos h]
  · intro t fc tc p _ hnone
    have hmask : ∀ b ∈ ((dfGet t fc).getD []).map p, b = false := by
      intro b hb
      obtain ⟨v, hv, rfl⟩ := List.mem_map.1 hb
      exact hnone v hv
    unfold dfGet at hmask
    unfold condMean colFilter maskSelect dfGet
    rw [lookup_zip_map]
    cases h' : List.lookup tc (t.names.zip t.cols) with
    | none => rfl
    | some col =>
        simp only [Option.map_some', Option.getD_some]
        rw [applyMask_all_false _ _ hmask]
        rfl

/-- Witness for `npMean_empty_nan` at the empty list and a concrete
one-row frame whose single row fails the predicate. -/
theorem npMean_empty_nan_witness :
    npMean [] = Val.nan ∧
    condMean ⟨["PERCENTAGE OF COORDINATION", "DEGREE OF TACIT COLLUSION"],
        [[Val.num 0, Val.num 0], [Val.num 3, Val.num 9]]⟩
      "PERCENTAGE OF COORDINATION"
      (fun v => match v with | Val.num q => decide (0 < q) | _ => false)
      "DEGREE OF TACIT COLLUSION" = Val.nan :=
  ⟨npMean_empty_nan.1 [] rfl,
    npMean_empty_nan.2 _ _ _ _ (by decide) (by decide)⟩

/-- C7: `ols(x, y)` fails with a DimensionMismatchError exactly when
`len(x) == len(y) >= 2` fails, and in particular `ols([1,2,3], [1,2])`
fails with DimensionMismatchError. -/
theorem ols_dimension_mismatch :
    (∀ x y : List ℚ, ols x y = Except.error Err.dimensionMismatch ↔
      ¬(x.length = y.length ∧ 2 ≤ x.length)) ∧
    ols [1, 2, 3] [1, 2] = Except.error Err.dimensionMismatch := by
  constructor
  · intro x y
    unfold ols
    by_cases h : x.length = y.length ∧ 2 ≤ x.length
    · rw [if_pos h]
      exact iff_of_false (by simp) (not_not_intro h)
    · rw [if_neg h]
      exact iff_of_true rfl h
  · unfold ols
    rw [if_neg (by decide)]

theorem toTable_numRows (lt : LongTable) :
    lt.toTable.numRows = lt.rows.length := by
  simp [LongTable.toTable, Table.numRows]

/-- Assigning to a fresh column name appends it. -/
theorem setColumn_new (t : Table) (name : String) (s : List Val)
    (h : name ∉ t.names) :
    setColumn t name s
      = ⟨t.names ++ [name], t.cols ++ [alignSeries t.numRows s]⟩ := by
  unfold setColumn
  rw [if_neg h]

/-- Reading back a freshly assigned column yields the aligned series. -/
theorem dfGet_setColumn_new (t : Table) (name : String) (s : List Val)
    (h : name ∉ t.names) (hlen : t.names.length = t.cols.length) :
    dfGet (setColumn t name s) name = some (alignSeries t.numRows s) := by
  rw [setColumn_new t name s h]
  unfold dfGet
  rw [List.zip_append hlen]
  apply lookup_append_last
  intro p hp heq
  exact h (heq ▸ (List.of_mem_zip hp).1)

/-- A keyed attach errors as soon as some base row has no matching
(id, category) pair in the other table. -/
theorem attachSpec_error_of_unmatched (other : LongTable)
    (rows : List (Val × String × Val))
    (h : ∃ r ∈ rows, (other.rows.find? fun o =>
      decide (o.1 = r.1) && decide (o.2.1 = r.2.1)) = none) :
    attachSpec other rows = Except.error Err.lookup := by
  induction rows with
  | nil =>
      obtain ⟨r, hr, _⟩ := h
      exact absurd hr (List.not_mem_nil r)
  | cons r0 rs ih =>
      obtain ⟨r, hr, hfind⟩ := h
      rcases List.mem_cons.1 hr with rfl | hr'
      · unfold attachSpec
        rw [hfind]
      · unfold attachSpec
        cases hf : other.rows.find? fun o =>
            decide (o.1 = r0.1) && decide (o.2.1 = r0.2.1) with
        | none => rfl
        | some o => rw [ih ⟨r, hr', hfind⟩]

/-- C10: the attach step aligns the two melted tables purely by row
position — for every pair of melted tables of equal row count, the column
assignment `base["percentage"] = other.percentage` appends the other
table's value column unchanged (so row `i` of the base receives row `i` of
the other table, with no comparison of the (id, category) keys), and the
result keeps exactly the base table's row count. -/
theorem attach_positional (base other : LongTable)
    (hname : "percentage" ∉ [base.idName, base.catName, base.valName])
    (hlen : other.rows.length = base.rows.length) :
    (setColumn base.toTable "percentage" other.valueCol).names
        = [base.idName, base.catName, base.valName, "percentage"] ∧
    dfGet (setColumn base.toTable "percentage" other.valueCol) "percentage"
        = some other.valueCol ∧
    (setColumn base.toTable "percentage" other.valueCol).numRows
        = base.rows.length := by
  have hnot : "percentage" ∉ base.toTable.names := hname
  have hvl : other.valueCol.length = base.toTable.numRows := by
    rw [toTable_numRows]
    simpa [LongTable.valueCol] using hlen
  refine ⟨?_, ?_, ?_⟩
  · rw [setColumn_new _ _ _ hnot]
    simp [LongTable.toTable]
  · rw [dfGet_setColumn_new _ _ _ hnot rfl,
      alignSeries_eq_self _ _ hvl]
  · rw [setColumn_new _ _ _ hnot]
    simp [LongTable.toTable, Table.numRows]

/-- Witness for `attach_positional` at two concrete one-row melted
tables. -/
theorem attach_positional_witness :
    (setColumn (melt ⟨"alpha", [Val.num 1], [("0.8", [Val.num 10])]⟩
        "delta" "phi").toTable "percentage"
      (melt ⟨"alpha", [Val.num 1], [("0.8", [Val.num 55])]⟩
        "delta" "percentage").valueCol).names
      = ["alpha", "delta", "phi", "percentage"] ∧
    dfGet (setColumn (melt ⟨"alpha", [Val.num 1], [("0.8", [Val.num 10])]⟩
        "delta" "phi").toTable "percentage"
      (melt ⟨"alpha", [Val.num 1], [("0.8", [Val.num 55])]⟩
        "delta" "percentage").valueCol) "percentage"
      = some (melt ⟨"alpha", [Val.num 1], [("0.8", [Val.num 55])]⟩
        "delta" "percentage").valueCol ∧
    (setColumn (melt ⟨"alpha", [Val.num 1], [("0.8", [Val.num 10])]⟩
        "delta" "phi").toTable "percentage"
      (melt ⟨"alpha", [Val.num 1], [("0.8", [Val.num 55])]⟩
        "delta" "percentage").valueCol).numRows
      = (melt ⟨"alpha", [Val.num 1], [("0.8", [Val.num 10])]⟩
        "delta" "phi").rows.length :=
  attach_positional _ _ (by decide) (by decide)

/-- C1 counterexample: the base melted table's single (id, category) pair
(1, "0.8") is absent from the other melted table, whose only row is keyed
(2, "0.9").  The spec's keyed attach fails with the LookupError kind there,
but the code's attach (positional column assignment, `boxplot.py` line 23)
raises nothing and attaches the value 99 from the non-matching row. -/
theorem attach_lookup_counterexample :
    attachSpec
        (melt ⟨"alpha", [Val.num 2], [("0.9", [Val.num 99])]⟩
          "delta" "percentage")
        (melt ⟨"alpha", [Val.num 1], [("0.8", [Val.num 10])]⟩
          "delta" "phi").rows
      = Except.error Err.lookup ∧
    dfGet (setColumn
        (melt ⟨"alpha", [Val.num 1], [("0.8", [Val.num 10])]⟩
          "delta" "phi").toTable
        "percentage"
        (melt ⟨"alpha", [Val.num 2], [("0.9", [Val.num 99])]⟩
          "delta" "percentage").valueCol)
      "percentage" = some [Val.num 99] := by
  constructor <;> rfl

/-- C1 (amended): the attach operation appends the other melted table's
value column aligned purely by position (`NaN`-filled where the other table
has fewer rows); a base row whose (id, category) pair is absent from the
other table causes no error and no null-fill decision keyed on the pair —
only the spec's keyed attach contract fails with LookupError there. -/
theorem attach_no_key_lookup (base other : LongTable)
    (hname : "percentage" ∉ [base.idName, base.catName, base.valName])
    (hmis : ∃ r ∈ base.rows, ∀ o ∈ other.rows,
      ¬(o.1 = r.1 ∧ o.2.1 = r.2.1)) :
    (setColumn base.toTable "percentage" other.valueCol).names
        = [base.idName, base.catName, base.valName, "percentage"] ∧
    dfGet (setColumn base.toTable "percentage" other.valueCol) "percentage"
        = some (alignSeries base.rows.length other.valueCol) ∧
    attachSpec other base.rows = Except.error Err.lookup := by
  have hnot : "percentage" ∉ base.toTable.names := hname
  refine ⟨?_, ?_, ?_⟩
  · rw [setColumn_new _ _ _ hnot]
    simp [LongTable.toTable]
  · rw [dfGet_setColumn_new _ _ _ hnot rfl, toTable_numRows]
  · obtain ⟨r, hr, hno⟩ := hmis
    apply attachSpec_error_of_unmatched
    refine ⟨r, hr, List.find?_eq_none.mpr ?_⟩
    intro o ho hdec
    have := hno o ho
    simp only [Bool.and_eq_true, decide_eq_true_eq] at hdec
    exact this hdec

/-- Witness for `attach_no_key_lookup` at concrete one-row melted tables
with disjoint keys. -/
theorem attach_no_key_lookup_witness :
    (setColumn (melt ⟨"alpha", [Val.num 3], [("0.7", [Val.num 12])]⟩
        "delta" "phi").toTable "percentage"
      (melt ⟨"alpha", [Val.num 4], [("0.6", [Val.num 88])]⟩
        "delta" "percentage").valueCol).names
      = ["alpha", "delta", "phi", "percentage"] ∧
    dfGet (setColumn (melt ⟨"alpha", [Val.num 3], [("0.7", [Val.num 12])]⟩
        "delta" "phi").toTable "percentage"
      (melt ⟨"alpha", [Val.num 4], [("0.6", [Val.num 88])]⟩
        "delta" "percentage").valueCol) "percentage"
      = some (alignSeries
        (melt ⟨"alpha", [Val.num 3], [("0.7", [Val.num 12])]⟩
          "delta" "phi").rows.length
        (melt ⟨"alpha", [Val.num 4], [("0.6", [Val.num 88])]⟩
          "delta" "percentage").valueCol) ∧
    attachSpec (melt ⟨"alpha", [Val.num 4], [("0.6", [Val.num 88])]⟩
        "delta" "percentage")
      (melt ⟨"alpha", [Val.num 3], [("0.7", [Val.num 12])]⟩
        "delta" "phi").rows = Except.error Err.lookup :=
  attach_no_key_lookup _ _ (by decide)
    ⟨(Val.num 3, "0.7", Val.num 12), by decide, by decide⟩

/-- C3 counterexample: running `boxplot.py` lines 18-23 on concrete one-row
wide inputs, the heap object at slot 0 — the melt output that
`treatment_phi_melted` references — is no longer equal to what it was
before the attach step: the attach operation mutated another stage's
output in place (through the `treatment_data` alias of line 22), so the
attach input is NOT unchanged after the operation. -/
theorem attach_mutation_counterexample :
    (boxplotAttach (boxplotBind
          ⟨"alpha", [Val.num 1], [("0.8", [Val.num 10])]⟩
          ⟨"alpha", [Val.num 1], [("0.8", [Val.num 50])]⟩)).heap.getD 0 emptyTable
      ≠ (boxplotBind
          ⟨"alpha", [Val.num 1], [("0.8", [Val.num 10])]⟩
          ⟨"alpha", [Val.num 1], [("0.8", [Val.num 50])]⟩).heap.getD 0 emptyTable := by
  decide

/-- C3 (amended): melt and filter produce new tables, but the attach stage
is not pure: for every pair of wide inputs, after `boxplot.py` line 23 the
variable `treatment_data` still aliases the same object as
`treatment_phi_melted`, that melt output has been mutated in place (it
gained the `percentage` column and differs from its pre-attach value),
while the other operand's object is unchanged. -/
theorem attach_mutates_base (phiWide pctWide : WideTable)
    (h : phiWide.idName ≠ "percentage") :
    (boxplotAttach (boxplotBind phiWide pctWide)).dataRef
        = (boxplotAttach (boxplotBind phiWide pctWide)).phiMeltedRef ∧
    ((boxplotAttach (boxplotBind phiWide pctWide)).heap.getD
        (boxplotBind phiWide pctWide).phiMeltedRef emptyTable).names
      = [phiWide.idName, "delta", "phi", "percentage"] ∧
    (boxplotAttach (boxplotBind phiWide pctWide)).heap.getD
        (boxplotBind phiWide pctWide).phiMeltedRef emptyTable
      ≠ (boxplotBind phiWide pctWide).heap.getD
        (boxplotBind phiWide pctWide).phiMeltedRef emptyTable ∧
    (boxplotAttach (boxplotBind phiWide pctWide)).heap.getD
        (boxplotBind phiWide pctWide).pctMeltedRef emptyTable
      = (boxplotBind phiWide pctWide).heap.getD
        (boxplotBind phiWide pctWide).pctMeltedRef emptyTable := by
  have hnot : "percentage" ∉ ((melt phiWide "delta" "phi").toTable).names := by
    show "percentage" ∉ [phiWide.idName, "delta", "phi"]
    intro hmem
    rcases List.mem_cons.1 hmem with heq | hmem1
    · exact h heq.symm
    · rcases List.mem_cons.1 hmem1 with heq | hmem2
      · exact absurd heq (by decide)
      · rcases List.mem_cons.1 hmem2 with heq | hmem3
        · exact absurd heq (by decide)
        · exact absurd hmem3 (List.not_mem_nil _)
  refine ⟨rfl, ?_, ?_, rfl⟩
  · show (setColumn ((melt phiWide "delta" "phi").toTable) "percentage"
        ((dfGet ((melt pctWide "delta" "percentage").toTable)
          "percentage").getD [])).names
      = [phiWide.idName, "delta", "phi", "percentage"]
    rw [setColumn_new _ _ _ hnot]
    simp [LongTable.toTable, melt]
  · show setColumn ((melt phiWide "delta" "phi").toTable) "percentage"
        ((dfGet ((melt pctWide "delta" "percentage").toTable)
          "percentage").getD [])
      ≠ (melt phiWide "delta" "phi").toTable
    intro heq
    have hlen := congrArg (fun t => t.names.length) heq
    rw [setColumn_new _ _ _ hnot] at hlen
    simp [LongTable.toTable] at hlen

/-- Witness for `attach_mutates_base` at concrete one-row wide inputs. -/
theorem attach_mutates_base_witness :
    (boxplotAttach (boxplotBind
          ⟨"alpha", [Val.num 2], [("0.9", [Val.num 11])]⟩
          ⟨"alpha", [Val.num 2], [("0.9", [Val.num 60])]⟩)).dataRef
        = (boxplotAttach (boxplotBind
          ⟨"alpha", [Val.num 2], [("0.9", [Val.num 11])]⟩
          ⟨"alpha", [Val.num 2], [("0.9", [Val.num 60])]⟩)).phiMeltedRef ∧
    ((boxplotAttach (boxplotBind
          ⟨"alpha", [Val.num 2], [("0.9", [Val.num 11])]⟩
          ⟨"alpha", [Val.num 2], [("0.9", [Val.num 60])]⟩)).heap.getD
        (boxplotBind
          ⟨"alpha", [Val.num 2], [("0.9", [Val.num 11])]⟩
          ⟨"alpha", [Val.num 2], [("0.9", [Val.num 60])]⟩).phiMeltedRef
        emptyTable).names
      = ["alpha", "delta", "phi", "percentage"] ∧
    (boxplotAttach (boxplotBind
          ⟨"alpha", [Val.num 2], [("0.9", [Val.num 11])]⟩
          ⟨"alpha", [Val.num 2], [("0.9", [Val.num 60])]⟩)).heap.getD
        (boxplotBind
          ⟨"alpha", [Val.num 2], [("0.9", [Val.num 11])]⟩
          ⟨"alpha", [Val.num 2], [("0.9", [Val.num 60])]⟩).phiMeltedRef
        emptyTable
      ≠ (boxplotBind
          ⟨"alpha", [Val.num 2], [("0.9", [Val.num 11])]⟩
          ⟨"alpha", [Val.num 2], [("0.9", [Val.num 60])]⟩).heap.getD
        (boxplotBind
          ⟨"alpha", [Val.num 2], [("0.9", [Val.num 11])]⟩
          ⟨"alpha", [Val.num 2], [("0.9", [Val.num 60])]⟩).phiMeltedRef
        emptyTable ∧
    (boxplotAttach (boxplotBind
          ⟨"alpha", [Val.num 2], [("0.9", [Val.num 11])]⟩
          ⟨"alpha", [Val.num 2], [("0.9", [Val.num 60])]⟩)).heap.getD
        (boxplotBind
          ⟨"alpha", [Val.num 2], [("0.9", [Val.num 11])]⟩
          ⟨"alpha", [Val.num 2], [("0.9", [Val.num 60])]⟩).pctMeltedRef
        emptyTable
      = (boxplotBind
          ⟨"alpha", [Val.num 2], [("0.9", [Val.num 11])]⟩
          ⟨"alpha", [Val.num 2], [("0.9", [Val.num 60])]⟩).heap.getD
        (boxplotBind
          ⟨"alpha", [Val.num 2], [("0.9", [Val.num 11])]⟩
          ⟨"alpha", [Val.num 2], [("0.9", [Val.num 60])]⟩).pctMeltedRef
        emptyTable :=
  attach_mutates_base
    ⟨"alpha", [Val.num 2], [("0.9", [Val.num 11])]⟩
    ⟨"alpha", [Val.num 2], [("0.9", [Val.num 60])]⟩ (by decide)

/-- C8: on exactly collinear data, `ols` returns that line —
`ols([1,2,3,4], [2,4,6,8])` yields intercept 0, slope 2 and R² = 1, and the
returned coefficients minimise the sum of squared residuals
Σ (yᵢ − a − b·xᵢ)² over all (a, b). -/
theorem ols_exact_line :
    ols [1, 2, 3, 4] [2, 4, 6, 8] = Except.ok ⟨0, 2, 1, 4⟩ ∧
    ∀ a b : ℚ, ssr [1, 2, 3, 4] [2, 4, 6, 8] 0 2
      ≤ ssr [1, 2, 3, 4] [2, 4, 6, 8] a b := by
  constructor
  · unfold ols
    rw [if_pos (by norm_num)]
    simp only [ssr, List.zip_cons_cons, List.zip_nil_right, List.map_cons,
      List.map_nil, List.sum_cons, List.sum_nil, List.length_cons,
      List.length_nil, Except.ok.injEq, RegressionResult.mk.injEq]
    norm_num
  · intro a b
    have h0 : ssr [1, 2, 3, 4] [2, 4, 6, 8] 0 2 = 0 := by
      simp only [ssr, List.zip_cons_cons, List.zip_nil_right, List.map_cons,
        List.map_nil, List.sum_cons, List.sum_nil]
      norm_num
    rw [h0]
    unfold ssr
    apply List.sum_nonneg
    intro q hq
    obtain ⟨p, _, rfl⟩ := List.mem_map.1 hq
    positivity

/-- Mask selection commutes with reading a frame row-wise: filtering every
column by the same mask filters the list of rows by that mask. -/
theorem rowsOfN_maskSelect (mask : List Bool) :
    ∀ (cols : List (List Val)), (∀ c ∈ cols, c.length = mask.length) →
      rowsOfN (trueCount mask) (cols.map (applyMask mask)) =
        applyMask mask (rowsOfN mask.length cols) := by
  induction mask with
  | nil =>
      intro cols hc
      rfl
  | cons b m ih =>
      intro cols hc
      have htail : ∀ c ∈ cols.map List.tail, c.length = m.length := by
        intro c hcmem
        obtain ⟨d, hd, rfl⟩ := List.mem_map.1 hcmem
        have := hc d hd
        cases d with
        | nil => simp at this
        | cons x xs => simpa using this
      cases b with
      | false =>
          show rowsOfN (trueCount m) (cols.map (applyMask (false :: m)))
              = applyMask (false :: m)
                  ((cols.map fun c => c.headD Val.nan)
                    :: rowsOfN m.length (cols.map List.tail))
          have hmaps : cols.map (applyMask (false :: m))
              = (cols.map List.tail).map (applyMask m) := by
            rw [List.map_map]
            apply List.map_congr_left
            intro c hcmem
            have hlen := hc c hcmem
            cases c with
            | nil => simp at hlen
            | cons x xs => simp [applyMask_cons]
          rw [hmaps, applyMask_cons]
          simp only [cond_false]
          exact ih _ htail
      | true =>
          show ((cols.map (applyMask (true :: m))).map fun c => c.headD Val.nan)
                :: rowsOfN (trueCount m)
                  ((cols.map (applyMask (true :: m))).map List.tail)
              = applyMask (true :: m)
                  ((cols.map fun c => c.headD Val.nan)
                    :: rowsOfN m.length (cols.map List.tail))
          rw [applyMask_cons]
          simp only [cond_true]
          congr 1
          · rw [List.map_map]
            apply List.map_congr_left
            intro c hcmem
            have hlen := hc c hcmem
            cases c with
            | nil => simp at hlen
            | cons x xs => simp [applyMask_cons]
          · have hmaps : (cols.map (applyMask (true :: m))).map List.tail
                = (cols.map List.tail).map (applyMask m) := by
              rw [List.map_map, List.map_map]
              apply List.map_congr_left
              intro c hcmem
              have hlen := hc c hcmem
              cases c with
              | nil => simp at hlen
              | cons x xs => simp [applyMask_cons]
            rw [hmaps]
            exact ih _ htail

/-- C9: for every well-formed table and every row predicate, the filtering
the scripts perform returns a new table with the same columns whose rows
are exactly the rows satisfying the predicate, in their original relative
order; on an empty table (zero rows — in particular the column lists all
empty) this returns an empty table of the same shape. -/
theorem dfFilter_spec (t : Table) (p : List Val → Bool) (hw : t.Wf) :
    (dfFilter t p).names = t.names ∧
    (dfFilter t p).rows = t.rows.filter p := by
  refine ⟨rfl, ?_⟩
  have hmask : (t.rows.map p).length = t.numRows := by
    simp [Table.rows, rowsOfN_length]
  have hcols : ∀ c ∈ t.cols, c.length = (t.rows.map p).length := by
    intro c hcmem
    rw [hmask]
    exact hw.2.2 c hcmem
  have key := rowsOfN_maskSelect (t.rows.map p) t.cols hcols
  rw [hmask] at key
  have hnum : (maskSelect t (t.rows.map p)).numRows
      = trueCount (t.rows.map p) := by
    cases hc : t.cols with
    | nil =>
        have h0 : t.numRows = 0 := by simp [Table.numRows, hc]
        simp [maskSelect, Table.numRows, Table.rows, trueCount, hc, h0, rowsOfN]
    | cons c0 rest =>
        have h0 : c0.length = (t.rows.map p).length :=
          hcols c0 (hc ▸ List.mem_cons_self _ _)
        simp only [maskSelect, Table.numRows, hc, List.map_cons, List.headD_cons]
        exact applyMask_length _ _ h0
  show rowsOfN (maskSelect t (t.rows.map p)).numRows
      (t.cols.map (applyMask (t.rows.map p))) = t.rows.filter p
  rw [hnum, key]
  show applyMask (t.rows.map p) t.rows = t.rows.filter p
  exact applyMask_map_self p t.rows

/-- Witness for `dfFilter_spec` at a concrete two-column frame with a
predicate on its second cell. -/
theorem dfFilter_spec_witness :
    (dfFilter ⟨["alpha", "PERCENTAGE OF COORDINATION"],
        [[Val.num 1, Val.num 2], [Val.num 0, Val.num 5]]⟩
      fun r => match r.getD 1 Val.nan with
        | Val.num q => decide (0 < q)
        | _ => false).names
      = ["alpha", "PERCENTAGE OF COORDINATION"] ∧
    (dfFilter ⟨["alpha", "PERCENTAGE OF COORDINATION"],
        [[Val.num 1, Val.num 2], [Val.num 0, Val.num 5]]⟩
      fun r => match r.getD 1 Val.nan with
        | Val.num q => decide (0 < q)
        | _ => false).rows
      = (Table.rows ⟨["alpha", "PERCENTAGE OF COORDINATION"],
          [[Val.num 1, Val.num 2], [Val.num 0, Val.num 5]]⟩).filter
        fun r => match r.getD 1 Val.nan with
          | Val.num q => decide (0 < q)
          | _ => false :=
  dfFilter_spec _ _ (by decide)

theorem flatMap_congr_mem {α β : Type} (l : List α) (f g : α → List β)
    (h : ∀ a ∈ l, f a = g a) : l.flatMap f = l.flatMap g := by
  induction l with
  | nil => rfl
  | cons a l ih =>
      rw [List.flatMap_cons, List.flatMap_cons, h a (List.mem_cons_self _ _),
        ih fun b hb => h b (List.mem_cons_of_mem _ hb)]

/-- First-appearance deduplication of a non-empty constant block followed by
a rest. -/
theorem uniqueInOrder_replicate_append (c : String) (m : ℕ) (rest : List String)
    (hm : 0 < m) :
    uniqueInOrder (List.replicate m c ++ rest)
      = c :: (uniqueInOrder rest).filter fun y => decide (y ≠ c) := by
  induction m with
  | zero => exact absurd hm (Nat.lt_irrefl 0)
  | succ m ih =>
      rw [List.replicate_succ, List.cons_append, uniqueInOrder]
      cases m with
      | zero => simp [List.replicate]
      | succ m' =>
          rw [ih (Nat.succ_pos _)]
          simp [List.filter_cons, List.filter_filter]

/-- First-appearance deduplication of the category column of a melted table:
the blocks of repeated category names collapse back to the distinct names in
original order. -/
theorem uniqueInOrder_blocks (cats : List (String × List Val)) (n : ℕ)
    (hn : 0 < n) (hd : (cats.map Prod.fst).Nodup) :
    uniqueInOrder (cats.flatMap fun c => List.replicate n c.1)
      = cats.map Prod.fst := by
  induction cats with
  | nil => rfl
  | cons c cs ih =>
      rw [List.flatMap_cons, uniqueInOrder_replicate_append _ _ _ hn,
        ih (List.nodup_cons.1 hd).2, List.map_cons]
      congr 1
      apply List.filter_eq_self.mpr
      intro a ha
      rw [decide_eq_true_iff]
      intro hcontra
      exact (List.nodup_cons.1 hd).1 (hcontra ▸ ha)

/-- The category column of a melted table is the sequence of category names,
each repeated once per input row. -/
theorem melt_rows_map_tag (w : WideTable) (hw : w.Wf)
    (varName valName : String) :
    (melt w varName valName).rows.map (fun r => r.2.1)
      = w.cats.flatMap fun c => List.replicate w.id.length c.1 := by
  unfold melt
  rw [List.map_flatMap]
  apply flatMap_congr_mem
  intro c hc
  rw [List.map_map]
  have hcomp : ((fun r : Val × String × Val => r.2.1) ∘ fun p : Val × Val =>
      (p.1, c.1, p.2)) = fun _ => c.1 := rfl
  rw [hcomp, List.map_const', List.length_zip, hw.1 c hc, Nat.min_self]

/-- Filtering the melted rows by one category name recovers exactly that
category's block. -/
theorem melt_filter_block (idv : List Val) (cats : List (String × List Val))
    (d : String × List Val) (hd : d ∈ cats)
    (hn : (cats.map Prod.fst).Nodup) :
    ((cats.flatMap fun e => (idv.zip e.2).map fun p => (p.1, e.1, p.2)).filter
        fun r => decide (r.2.1 = d.1))
      = (idv.zip d.2).map fun p => (p.1, d.1, p.2) := by
  induction cats with
  | nil => exact absurd hd (List.not_mem_nil d)
  | cons e cs ih =>
      rw [List.flatMap_cons, List.filter_append]
      rcases List.mem_cons.1 hd with rfl | hd'
      · have h1 : (((idv.zip d.2).map fun p => (p.1, d.1, p.2)).filter
            fun r => decide (r.2.1 = d.1))
            = (idv.zip d.2).map fun p => (p.1, d.1, p.2) := by
          apply List.filter_eq_self.mpr
          intro r hr
          obtain ⟨p, _, rfl⟩ := List.mem_map.1 hr
          simp
        have h2 : ((cs.flatMap fun e => (idv.zip e.2).map fun p =>
            (p.1, e.1, p.2)).filter fun r => decide (r.2.1 = d.1)) = [] := by
          apply List.filter_eq_nil_iff.mpr
          intro r hr
          obtain ⟨e', he', hre⟩ := List.mem_flatMap.1 hr
          obtain ⟨p, _, rfl⟩ := List.mem_map.1 hre
          simp only [decide_eq_true_eq]
          intro hcontra
          exact (List.nodup_cons.1 hn).1
            (hcontra ▸ List.mem_map_of_mem Prod.fst he')
        rw [h1, h2, List.append_nil]
      · have hne : e.1 ≠ d.1 := by
          intro hcontra
          exact (List.nodup_cons.1 hn).1
            (hcontra ▸ List.mem_map_of_mem Prod.fst hd')
        have h1 : (((idv.zip e.2).map fun p => (p.1, e.1, p.2)).filter
            fun r => decide (r.2.1 = d.1)) = [] := by
          apply List.filter_eq_nil_iff.mpr
          intro r hr
          obtain ⟨p, _, rfl⟩ := List.mem_map.1 hr
          simp only [decide_eq_true_eq]
          exact hne
        rw [h1, List.nil_append]
        exact ih hd' (List.nodup_cons.1 hn).2

/-- C6 counterexample: melt is not lossless on every WideTable.  A one-row
wide table with zero category columns melts to the empty LongTable — the
same melt output as the zero-row table — so no re-widening can reconstruct
it: the round trip fails at this well-formed input (the spec's own
zero-category edge case). -/
theorem melt_roundtrip_counterexample :
    melt ⟨"alpha", [Val.num 1], []⟩ "delta" "phi"
      = melt ⟨"alpha", [], []⟩ "delta" "phi" ∧
    (⟨"alpha", [Val.num 1], []⟩ : WideTable) ≠ ⟨"alpha", [], []⟩ ∧
    WideTable.Wf ⟨"alpha", [Val.num 1], []⟩ ∧
    widen (melt ⟨"alpha", [Val.num 1], []⟩ "delta" "phi")
      ≠ ⟨"alpha", [Val.num 1], []⟩ := by
  exact ⟨rfl, by decide, by decide, by decide⟩

/-- C6 (amended): for every well-formed WideTable with at least one row and
at least one category column, melting and then re-widening (grouping the
long rows by category back into columns) reconstructs the original
WideTable exactly — on non-degenerate tables melt is a lossless,
deterministic round trip. -/
theorem melt_widen_roundtrip (w : WideTable) (varName valName : String)
    (hw : w.Wf) (hid : w.id ≠ []) (hcats : w.cats ≠ []) :
    widen (melt w varName valName) = w := by
  have hn : 0 < w.id.length := List.length_pos.mpr hid
  have huniq : uniqueInOrder ((melt w varName valName).rows.map fun r => r.2.1)
      = w.cats.map Prod.fst := by
    rw [melt_rows_map_tag w hw varName valName]
    exact uniqueInOrder_blocks _ _ hn hw.2
  have hval : ∀ d ∈ w.cats,
      (((melt w varName valName).rows.filter fun r =>
        decide (r.2.1 = d.1)).map fun r => r.2.2) = d.2 := by
    intro d hd
    show (((w.cats.flatMap fun e => (w.id.zip e.2).map fun p =>
        (p.1, e.1, p.2)).filter fun r => decide (r.2.1 = d.1)).map
          fun r => r.2.2) = d.2
    rw [melt_filter_block w.id w.cats d hd hw.2, List.map_map]
    have hcomp : ((fun r : Val × String × Val => r.2.2) ∘ fun p : Val × Val =>
        (p.1, d.1, p.2)) = Prod.snd := rfl
    rw [hcomp]
    exact List.map_snd_zip _ _ (le_of_eq (hw.1 d hd))
  unfold widen
  rw [huniq]
  obtain ⟨iN, idv, cats⟩ := w
  obtain ⟨d0, cs, rfl⟩ : ∃ d0 cs, cats = d0 :: cs := by
    cases cats with
    | nil => exact absurd rfl hcats
    | cons d0 cs => exact ⟨d0, cs, rfl⟩
  show WideTable.mk iN
      (((melt ⟨iN, idv, d0 :: cs⟩ varName valName).rows.filter fun r =>
        decide (r.2.1 = d0.1)).map fun r => r.1)
      (((d0 :: cs).map Prod.fst).map fun c =>
        (c, ((melt ⟨iN, idv, d0 :: cs⟩ varName valName).rows.filter fun r =>
          decide (r.2.1 = c)).map fun r => r.2.2))
    = WideTable.mk iN idv (d0 :: cs)
  rw [WideTable.mk.injEq]
  refine ⟨rfl, ?_, ?_⟩
  · show (((d0 :: cs).flatMap fun e => (idv.zip e.2).map fun p =>
        (p.1, e.1, p.2)).filter fun r => decide (r.2.1 = d0.1)).map
        (fun r => r.1) = idv
    rw [melt_filter_block idv (d0 :: cs) d0 (List.mem_cons_self _ _) hw.2,
      List.map_map]
    have hcomp : ((fun r : Val × String × Val => r.1) ∘ fun p : Val × Val =>
        (p.1, d0.1, p.2)) = Prod.fst := rfl
    rw [hcomp]
    exact List.map_fst_zip _ _ (ge_of_eq (hw.1 d0 (List.mem_cons_self _ _)))
  · rw [List.map_map]
    have hmapid : (d0 :: cs).map ((fun c => (c,
        ((melt ⟨iN, idv, d0 :: cs⟩ varName valName).rows.filter fun r =>
          decide (r.2.1 = c)).map fun r => r.2.2)) ∘ Prod.fst)
        = (d0 :: cs).map id := by
      apply List.map_congr_left
      intro d hd
      show (d.1, ((melt ⟨iN, idv, d0 :: cs⟩ varName valName).rows.filter
        fun r => decide (r.2.1 = d.1)).map fun r => r.2.2) = d
      rw [hval d hd]
    rw [hmapid, List.map_id]

/-- Witness for `melt_widen_roundtrip` at a concrete 2×2 wide table. -/
theorem melt_widen_roundtrip_witness :
    widen (melt ⟨"alpha", [Val.num 1, Val.num 2],
        [("0.8", [Val.num 10, Val.num 11]), ("0.9", [Val.num 20, Val.num 21])]⟩
      "delta" "phi")
      = ⟨"alpha", [Val.num 1, Val.num 2],
        [("0.8", [Val.num 10, Val.num 11]),
          ("0.9", [Val.num 20, Val.num 21])]⟩ :=
  melt_widen_roundtrip _ "delta" "phi" (by decide) (by decide) (by decide)
